import Mathlib

/-!
Verification development for the entity-grounding and threat-correlation
engine of the Cyber-Ontology-INtelligence repository.

The Python sources embedded here are
  * `src/services/correlation.py`   (`run_correlation_analysis` and helpers),
  * `src/services/intelligence_processor.py`
    (`IntelligenceProcessor._clean_and_split`, `_clean_string`, `_ground_entity`),
  * `src/core/graph_client.py`      (`Neo4jClient.query`),
together with the part of Python's `difflib.SequenceMatcher` that
`_ground_entity` relies on (`ratio()` on short, junk-free sequences).

Modelling conventions:
  * Python strings are `String` (lists of characters); `str.lower` is the
    ASCII case mapping applied character-wise (the inputs handled by the
    engine are ASCII artifact values, so Unicode special-casing is out of
    scope), `str.strip` strips ASCII whitespace.
  * Python floats are modelled as `ℚ`; built-in `round` is round-half-to-even
    on the exact value (`pyRound` below).
  * The Neo4j store, the LLM disambiguator and the LLM narrative generator
    are external collaborators; they enter as explicit oracle parameters
    giving the rows each generated query returns (or the error it raises).
-/

/-! ## Basic string helpers (Python `str` operations) -/

/-- ASCII lower-casing of one character (model of `str.lower`, char-wise). -/
def lowChar (c : Char) : Char :=
  if 65 ≤ c.toNat ∧ c.toNat ≤ 90 then Char.ofNat (c.toNat + 32) else c

/-- `s.lower()` — ASCII lower-casing of a string. -/
def lowerStr (s : String) : String :=
  String.mk (s.toList.map lowChar)

/-- ASCII whitespace, for `str.strip`. -/
def isSpc (c : Char) : Bool :=
  c = ' ' ∨ c = '\t' ∨ c = '\n' ∨ c = '\r'

/-- `s.strip()` on the character list. -/
def trimList (cs : List Char) : List Char :=
  ((cs.dropWhile isSpc).reverse.dropWhile isSpc).reverse

/-- `s.strip()`. -/
def trimStr (s : String) : String :=
  String.mk (trimList s.toList)

/-- Fueled worker for `str.replace` (all occurrences, left to right,
non-overlapping).  The fuel is the length of the subject string, which is
enough because every step consumes at least one character. -/
def replaceAllF (pat rep : List Char) : Nat → List Char → List Char
  | _, [] => []
  | 0, s => s
  | fuel + 1, c :: cs =>
    if pat ≠ [] ∧ pat.isPrefixOf (c :: cs) then
      rep ++ replaceAllF pat rep fuel ((c :: cs).drop pat.length)
    else
      c :: replaceAllF pat rep fuel cs

/-- Python `s.replace(pat, rep)`; the engine never calls it with an empty
pattern. -/
def pyReplace (s pat rep : String) : String :=
  String.mk (replaceAllF pat.toList rep.toList s.toList.length s.toList)

/-- The characters of `m` after its first `':'`, or `none` when there is no
colon — the split the correlation code performs with `m.split(":", 1)`. -/
def afterColon : List Char → Option (List Char)
  | [] => none
  | c :: cs => if c = ':' then some cs else afterColon cs

/-- Lexicographic (code-point) comparison of strings, Python's `<=` on `str`. -/
def lexLe : List Char → List Char → Bool
  | [], _ => true
  | _ :: _, [] => false
  | a :: as, b :: bs => if a = b then lexLe as bs else decide (a < b)

/-- Stable insertion step for sorting. -/
def insertLe {α : Type} (le : α → α → Bool) (x : α) : List α → List α
  | [] => [x]
  | y :: ys => if le x y then x :: y :: ys else y :: insertLe le x ys

/-- Stable insertion sort; agrees with Python's (stable) `sorted`. -/
def insertionSort {α : Type} (le : α → α → Bool) (l : List α) : List α :=
  l.foldr (insertLe le) []

/-- Python `sorted` on strings. -/
def sortStr (l : List String) : List String :=
  insertionSort (fun a b => lexLe a.toList b.toList) l

/-- Add an element to a duplicate-free list (the model of `set.add`; only the
underlying set of the result is ever observed, through `sorted`). -/
def addStr (l : List String) (s : String) : List String :=
  if l.contains s then l else l ++ [s]

/-- Deduplicate, keeping first occurrences (model of building a Python set). -/
def dedupStr (l : List String) : List String :=
  l.foldl addStr []

/-- Python `" | ".join`-style joining. -/
def joinSep (sep : String) : List String → String
  | [] => ""
  | [x] => x
  | x :: xs => x ++ sep ++ joinSep sep xs

/-- Contiguous-sublist test on character lists. -/
def subListOf (pat : List Char) : List Char → Bool
  | [] => pat.isEmpty
  | c :: rest => pat.isPrefixOf (c :: rest) || subListOf pat rest

/-- Python `sub in s` — substring test. -/
def hasSub (sub s : String) : Bool :=
  subListOf sub.toList s.toList

/-! ## Python `round` (banker's rounding) on exact rationals -/

/-- Python `round(x)`: nearest integer, ties to even. -/
def pyRound (q : ℚ) : ℤ :=
  if q - ⌊q⌋ = 1 / 2 then (if 2 ∣ ⌊q⌋ then ⌊q⌋ else ⌊q⌋ + 1) else ⌊q + 1 / 2⌋

/-- Python `round(x, 1)`. -/
def round1 (q : ℚ) : ℚ :=
  (pyRound (q * 10) : ℚ) / 10

/-- Python `round(x, 3)`. -/
def round3 (q : ℚ) : ℚ :=
  (pyRound (q * 1000) : ℚ) / 1000

/-! ## `difflib.SequenceMatcher` on short, junk-free sequences

`_ground_entity` scores candidates with
`SequenceMatcher(None, a.lower(), b.lower()).ratio()`.  The strings compared
are short artifact values and node names (far below the 200-element autojunk
cutoff), so no element is ever junk and `ratio` is `2*M / (len a + len b)`
where `M` is the total size of the matching blocks: recursively, the longest
common block — maximal length, then earliest start in `a`, then earliest
start in `b` — splits both sequences and the two sides are matched
recursively. -/

/-- Length of the longest common prefix of two sequences. -/
def lcp : List Char → List Char → Nat
  | x :: xs, y :: ys => if x = y then lcp xs ys + 1 else 0
  | _, _ => 0

/-- All blocks `(i, j, k)` where `k` is the length of the longest common
block of `a`, `b` starting at positions `i`, `j`; listed with `i` ascending,
then `j` ascending — the scan order of `find_longest_match`. -/
def allBlocks (a b : List Char) : List (Nat × Nat × Nat) :=
  (List.range a.length).flatMap fun i =>
    (List.range b.length).map fun j => (i, j, lcp (a.drop i) (b.drop j))

/-- `find_longest_match`: of all maximal matching blocks, the one starting
earliest in `a` and then earliest in `b` (no junk to adjust for).  Scanning
in `allBlocks` order and replacing only on a strictly longer block realises
exactly that tie-breaking. -/
def bestBlock (a b : List Char) : Nat × Nat × Nat :=
  (allBlocks a b).foldl (fun acc c => if c.2.2 > acc.2.2 then c else acc) (0, 0, 0)

/-- Fueled total number of matched elements (`get_matching_blocks` recursion);
fuel `a.length + b.length` suffices since each recursive call strictly
shrinks the combined length. -/
def matchTotalF : Nat → List Char → List Char → Nat
  | 0, _, _ => 0
  | fuel + 1, a, b =>
    let t := bestBlock a b
    if t.2.2 = 0 then 0
    else
      matchTotalF fuel (a.take t.1) (b.take t.2.1) + t.2.2 +
        matchTotalF fuel (a.drop (t.1 + t.2.2)) (b.drop (t.2.1 + t.2.2))

/-- Total number of matched elements between `a` and `b`. -/
def matchTotal (a b : List Char) : Nat :=
  matchTotalF (a.length + b.length) a b

/-- `SequenceMatcher(None, a, b).ratio()` (with `_calculate_ratio`'s
empty-input special case). -/
def seqMatchScore (a b : List Char) : ℚ :=
  if a.length + b.length = 0 then 1
  else (2 * matchTotal a b : ℚ) / (a.length + b.length)

/-- The similarity actually used by grounding:
`SequenceMatcher(None, x.lower(), y.lower()).ratio()`. -/
def simScore (x y : String) : ℚ :=
  seqMatchScore (lowerStr x).toList (lowerStr y).toList

/-! ## `IntelligenceProcessor` — entities, cleaning/splitting, grounding

From `src/services/intelligence_processor.py` and `src/core/schemas.py`. -/

/-- `schemas.Entity` (the pydantic `Literal` type annotation is modelled as
the plain string it carries). -/
structure Entity where
  type : String
  value : String
  normalized_value : Option String := none
  existing_id : Option String := none
  is_new : Bool := true
deriving DecidableEq

/-- `schemas.EntityResolution` — the LLM disambiguator's structured output. -/
structure Resolution where
  is_match : Bool
  matched_id : Option String := none
  normalized_name : Option String := none
deriving DecidableEq

/-- `_clean_string`: de-fanging recovery, four chained `str.replace` calls. -/
def cleanString (text : String) : String :=
  pyReplace (pyReplace (pyReplace (pyReplace text "[.]" ".") "(.)" ".") "[:]" ":") "hxxp" "http"

/-- Greedily consume leading ASCII digits. -/
def takeDigits : List Char → List Char × List Char
  | [] => ([], [])
  | c :: cs =>
    if c.isDigit then
      let p := takeDigits cs
      (c :: p.1, p.2)
    else ([], c :: cs)

/-- Consume `\d{1,3}`.  Greedy consumption is equivalent to the regex here:
a shorter digit run would be followed by another digit, never by the `.`/`:`
the pattern requires next. -/
def octetThen (cs : List Char) : Option (List Char × List Char) :=
  let p := takeDigits cs
  if 1 ≤ p.1.length ∧ p.1.length ≤ 3 then some p else none

/-- Consume `(?:\.\d{1,3}){n}`. -/
def dotOctets : Nat → List Char → Option (List Char × List Char)
  | 0, cs => some ([], cs)
  | n + 1, cs =>
    match cs with
    | '.' :: rest =>
      match octetThen rest with
      | some p =>
        match dotOctets n p.2 with
        | some q => some ('.' :: p.1 ++ q.1, q.2)
        | none => none
      | none => none
    | _ => none

/-- `re.match(r"^(\d{1,3}(?:\.\d{1,3}){3}):([\d,]+)$", s)`, returning
`match.group(1)` (the IP) on success. -/
def ipPortMatch (cs : List Char) : Option (List Char) :=
  match octetThen cs with
  | none => none
  | some p =>
    match dotOctets 3 p.2 with
    | none => none
    | some q =>
      match q.2 with
      | ':' :: rest =>
        if rest ≠ [] ∧ rest.all (fun c => c.isDigit ∨ c = ',') then some (p.1 ++ q.1)
        else none
      | _ => none

/-- `IntelligenceProcessor._clean_and_split`: de-fang; for an `IP`-typed
entity whose cleaned value matches `IP:port[,port]*`, keep only the IP part
(the source drops the port information with an explicit comment); every
other entity is passed through with the cleaned value. -/
def cleanAndSplit (e : Entity) : List Entity :=
  let cleanVal := cleanString e.value
  if e.type = "IP" ∧ cleanVal.toList.contains ':' then
    match ipPortMatch cleanVal.toList with
    | some ip => [{ e with value := String.mk ip }]
    | none => [{ e with value := cleanVal }]
  else [{ e with value := cleanVal }]

/-- A row of `_ground_entity`'s candidate query
(`name`, `elementId`; the `labels` column does not influence grounding). -/
structure DbRow where
  name : String
  id : String
deriving DecidableEq

/-- The two collaborators `_ground_entity` consults: the graph lookup
(`CONTAINS toLower($val) … LIMIT 3`; an empty list also models the query
raising, which the source swallows into `results = []`), and the LLM
resolver (`none` models `invoke` raising or returning a falsy object, both
of which the source ignores). -/
structure GroundingOracle where
  lookup : String → List DbRow
  resolve : String → List DbRow → Option Resolution

/-- Candidate list with similarity scores, as built by `_ground_entity`. -/
def candScores (e : Entity) (results : List DbRow) : List (DbRow × ℚ) :=
  results.map fun r => (r, simScore e.value r.name)

/-- Python `max(candidates, key=score)`: first candidate of maximal score. -/
def maxByScore : List (DbRow × ℚ) → Option (DbRow × ℚ)
  | [] => none
  | c :: cs => some (cs.foldl (fun acc x => if x.2 > acc.2 then x else acc) c)

/-- `IntelligenceProcessor._ground_entity`. -/
def groundEntity (g : GroundingOracle) (e : Entity) : Entity :=
  let e0 : Entity := { e with normalized_value := some e.value, is_new := true }
  let results := g.lookup e.value
  if results.isEmpty then e0
  else
    match maxByScore (candScores e results) with
    | none => e0
    | some best =>
      if best.2 > 0.9 then
        { e0 with normalized_value := some best.1.name, existing_id := some best.1.id,
                  is_new := false }
      else if best.2 > 0.6 then
        match g.resolve e.value results with
        | some res =>
          if res.is_match then
            { e0 with normalized_value := res.normalized_name, existing_id := res.matched_id,
                      is_new := false }
          else e0
        | none => e0
      else e0

/-! ## `run_correlation_analysis` — strategies, rows, aggregation, scoring

From `src/services/correlation.py`.  The Cypher texts the source
interpolates are modelled structurally: a `Strategy` records the parameters
interpolated into each generated sub-query, and a `GraphOracle` says what
rows the store returns for it (`Except.error` models `graph_client.query`
raising, which `run_correlation_analysis` catches).  `Neo4jClient.query`
itself swallows in-query failures and returns `[]`, and returns `[]` when
the driver could not connect, so an unreachable store is the oracle that
answers every request with `Except.ok []`. -/

/-- One element of the caller's artifact list (`{'type': …, 'value': …}`). -/
structure Artifact where
  type : String
  value : String
deriving DecidableEq

/-- A row returned by one correlation sub-query.  Every generated sub-query
returns `label`, `type`, `dist` and `matches` columns (`label` and `type`
may be null); only fulltext rows carry `raw_score`, so that field is the
model of `r.get('raw_score', 0)`.  `matchStrs` is the row's `matches` column
(`matches` is a Lean keyword). -/
structure Row where
  label : Option String
  type : Option String
  dist : Nat
  matchStrs : List String
  raw_score : Option ℚ := none
deriving DecidableEq

/-- One search strategy, i.e. the parameters of one generated sub-query, in
the source's construction order: exact match, contains match, fulltext (or
its contains fallback), APOC seed expansion, aggressive contains. -/
inductive Strategy where
  | exact (val : String)
  | containsMatch (val : String)
  | fulltext (index : String) (val : String)
  | containsFallback (val : String)
  | expand (val : String) (relFilter : String) (labelFilter : String)
      (minLevel : Nat) (maxLevel : Int) (limit : Nat)
  | aggressiveContains (val : String)
deriving DecidableEq

/-- The external collaborators of `run_correlation_analysis`:
`fulltextIndex` is the result of `_get_fulltext_index_name()`; `run` executes
one generated sub-query; `incidentTGs`/`resolveTGs` are the rows (`tgname`
column, possibly null) of the two `_find_threatgroups_for_label` queries for
a given `$val`; `llm` is the narrative generator, fed with the per-actor
evidence summaries (label, matched clues, full evidence). -/
structure GraphOracle where
  fulltextIndex : Option String
  run : Strategy → Except String (List Row)
  incidentTGs : String → List (Option String)
  resolveTGs : String → List (Option String)
  llm : List (String × List String × List String) → String

/-- `safe_val`: `str(val).replace("'", "\\'")`. -/
def escapeQuote (s : String) : String :=
  pyReplace s (String.mk ['\'']) (String.mk ['\\', '\''])

/-- `_escape_lucene_query`: prefix every Lucene special character with a
backslash. -/
def escapeLucene (s : String) : String :=
  ['+', '-', '&', '|', '!', '(', ')', '{', '}', '[', ']', '^', '"', '~', '*',
      '?', ':', '<', '>', '/'].foldl
    (fun q c => pyReplace q (String.mk [c]) (String.mk ['\\', c])) s

/-- The fixed relationship allowlist (`rel_filter`). -/
def relFilter : String :=
  "USES|INDICATES|RELATED_TO|CONNECTED|RELATED|ASSOCIATED_WITH|USES_MALWARE|EXPLOITS|HAS_INDICATOR|ATTRIBUTED_TO|TARGETS|STARTS_WITH|NEXT"

/-- The label allowlist (`label_allow`, second, live assignment): with
incident inclusion the full list, otherwise with `|Incident` and
`|AttackStep` removed by `str.replace`. -/
def labelAllow (includeIncidents : Bool) : String :=
  let base := "+(ThreatGroup|Campaign|Actor|Incident|Malware|Indicator|Vulnerability|AttackTechnique|Tool|Identity|AttackStep)"
  if includeIncidents then base
  else pyReplace (pyReplace base "|Incident" "") "|AttackStep" ""

/-- The sub-queries built for one artifact, in source order.  `looseness` is
already normalised by the caller. -/
def buildArtifactStrategies (a : Artifact) (depth : Int) (looseness : Int)
    (includeIncidents : Bool) (ftIdx : Option String) : List Strategy :=
  let safe := escapeQuote a.value
  [Strategy.exact safe, Strategy.containsMatch safe] ++
    [match ftIdx with
     | some idx =>
       if looseness ≥ 20 then Strategy.fulltext idx (escapeLucene safe)
       else Strategy.containsFallback safe
     | none => Strategy.containsFallback safe] ++
    [Strategy.expand safe relFilter (labelAllow includeIncidents) 1
        (max 3 (depth + 1)) 200] ++
    (if looseness ≥ 60 then [Strategy.aggressiveContains safe] else [])

/-- The sentinel row appended when a sub-query raises
(`{'label': None, 'type': 'QueryError', 'dist': 9999, 'matches': […]}`). -/
def errRow (e : String) : Row :=
  { label := none, type := some "QueryError", dist := 9999,
    matchStrs := ["QueryError: " ++ e], raw_score := none }

/-- Execute all sub-queries and collect rows; a raising query contributes
its sentinel row, every other query its result rows. -/
def rawRowsOf (g : GraphOracle) (strategies : List Strategy) : List Row :=
  strategies.flatMap fun s =>
    match g.run s with
    | Except.ok rs => rs
    | Except.error e => [errRow e]

/-- `(r.get('type') or '').strip()`. -/
def rowType (r : Row) : String :=
  trimStr (r.type.getD "")

/-- Keep the truthy `tgname` values of a resolution query's rows. -/
def truthyNames (rows : List (Option String)) : List String :=
  rows.filterMap fun o =>
    match o with
    | some s => if s = "" then none else some s
    | none => none

/-- `_find_threatgroups_for_label` (the `tg_cache` memo of a deterministic
oracle is semantically the identity and is elided). -/
def findTGs (g : GraphOracle) (label : Option String) (itype : String) :
    List String :=
  let k := label.getD ""
  if itype = "Incident" then truthyNames (g.incidentTGs k)
  else truthyNames (g.resolveTGs k)

/-- An entry of `tg_matches`: an actor-attributed match candidate. -/
structure TGMatch where
  label : Option String
  dist : Nat
  matchStrs : List String
  raw_score : ℚ
deriving DecidableEq

/-- `f"LinkedVia:{label_val}"` — Python string interpolation of a possibly
`None` label. -/
def linkedVia (label : Option String) : String :=
  "LinkedVia:" ++ (match label with | some s => s | none => "None")

/-- Processing of one raw row: a `ThreatGroup` row is kept as is (its raw
`dist`); any other row first replaces a falsy distance by 10
(`r.get('dist', 10) or 10`), then is resolved to zero or more threat groups,
each at distance `dist + 1` (row typed `Incident`) or `dist + 2`. -/
def resolveRow (g : GraphOracle) (r : Row) : List TGMatch :=
  let rType := rowType r
  let dist := if r.dist = 0 then 10 else r.dist
  let rawScore := r.raw_score.getD 0
  if rType = "ThreatGroup" then
    [{ label := r.label, dist := r.dist, matchStrs := r.matchStrs, raw_score := rawScore }]
  else
    (findTGs g r.label rType).map fun tg =>
      { label := some tg,
        dist := dist + (if rType = "Incident" then 1 else 2),
        matchStrs := r.matchStrs ++ [linkedVia r.label],
        raw_score := rawScore }

/-- Per-actor aggregate (`aggregated_tgs[label]`). -/
structure Agg where
  min_dist : Nat
  all_matches : List String
  total_raw_score : ℚ
  match_count : Nat
deriving DecidableEq

/-- Fold one `TGMatch` into the aggregate map; a falsy label (`None` or the
empty string) is skipped; a fresh label is initialised with the match's own
distance and then updated like an existing one. -/
def updateAgg (m : TGMatch) (a : Agg) : Agg :=
  { min_dist := min a.min_dist m.dist,
    all_matches := m.matchStrs.foldl addStr a.all_matches,
    total_raw_score := a.total_raw_score + m.raw_score,
    match_count := a.match_count + 1 }

/-- Insertion-ordered association update (Python dict semantics). -/
def insertMatch (acc : List (String × Agg)) (m : TGMatch) : List (String × Agg) :=
  match m.label with
  | none => acc
  | some l =>
    if l = "" then acc
    else
      let rec go : List (String × Agg) → List (String × Agg)
        | [] => [(l, updateAgg m { min_dist := m.dist, all_matches := [],
                                   total_raw_score := 0, match_count := 0 })]
        | (k, v) :: rest => if k = l then (k, updateAgg m v) :: rest else (k, v) :: go rest
      go acc

/-- `aggregated_tgs`, in insertion order. -/
def aggregate (ms : List TGMatch) : List (String × Agg) :=
  ms.foldl insertMatch []

/-- `user_input_values`: the set of lower-cased caller artifact values. -/
def userInputValues (artifacts : List Artifact) : List String :=
  dedupStr (artifacts.map fun a => lowerStr a.value)

/-- The clue extracted from one evidence string `m`: if (the lower-cased) `m`
contains a colon, the part after the first colon is compared (lower-cased)
against the input set and the *original-case* tail of `m` is the clue;
otherwise `m` itself is the clue when its lower-casing is an input value. -/
def clueOf (userVals : List String) (m : String) : Option String :=
  let mclean := lowerStr m
  match afterColon mclean.toList, afterColon m.toList with
  | some p1, some porig =>
    if userVals.contains (String.mk p1) then some (String.mk porig) else none
  | _, _ => if userVals.contains mclean then some m else none

/-- `matched_clues`: extract, deduplicate, sort. -/
def matchedCluesOf (userVals : List String) (allMatches : List String) :
    List String :=
  sortStr (dedupStr (allMatches.filterMap (clueOf userVals)))

/-- The combined confidence score of one aggregated actor:
`(proximity*0.4 + breadth*0.5 + min(0.1, total_raw_score/100)) * provenance`,
with `proximity = 1/(1+min_dist)`,
`breadth = min(1, len(matched_clues)/max(1, len(artifacts)))`, and a ×1.2
provenance weight when any evidence string mentions an incident. -/
def combinedScore (userVals : List String) (nArtifacts : Nat) (agg : Agg) : ℚ :=
  let dist := agg.min_dist
  let allM := sortStr agg.all_matches
  let matchedClues := matchedCluesOf userVals allM
  let proximity : ℚ := 1 / (1 + (dist : ℚ))
  let breadth : ℚ := min 1 ((matchedClues.length : ℚ) / (max 1 nArtifacts : Nat))
  let provenance : ℚ :=
    if allM.any (fun m => hasSub "Incident" m || hasSub "incident" m) then 1.2 else 1
  (proximity * 0.4 + breadth * 0.5 + min 0.1 (agg.total_raw_score / 100)) * provenance

/-- One formatted correlation result (`matchesStr` is the output's `matches`
key, a `" | "`-joined string or `"Indirect Link"`). -/
structure ResEntry where
  type : String
  label : String
  score : ℚ
  percent : ℚ
  matchesStr : String
  uri : String
deriving DecidableEq

/-- Formatting of one aggregated actor into a result entry. -/
def formatActor (userVals : List String) (nArtifacts : Nat) (label : String)
    (agg : Agg) : ResEntry :=
  let combined := combinedScore userVals nArtifacts agg
  let matchedClues := matchedCluesOf userVals (sortStr agg.all_matches)
  { type := "ThreatGroup",
    label := label,
    score := round3 combined,
    percent := min (round1 (combined * 100)) 100,
    matchesStr := if matchedClues.isEmpty then "Indirect Link"
                  else joinSep " | " matchedClues,
    uri := label }

/-- `sorted(…, key=score, reverse=True)` — stable descending sort. -/
def sortByScoreDesc (l : List ResEntry) : List ResEntry :=
  insertionSort (fun x y => decide (y.score ≤ x.score)) l

/-- Message returned when no sub-queries were built (empty artifact list). -/
def msgNoArtifacts : String :=
  "분석 가능한 아티팩트가 없거나, 선택된 심도(Depth)에서는 탐색 경로가 정의되지 않았습니다."

/-- Message returned when no threat group was found. -/
def msgNoMatch : String :=
  "조건에 맞는 위협 그룹을 찾지 못했습니다."

/-- `run_correlation_analysis(artifacts, depth, looseness, include_incidents)`
against the store/LLM oracle `g`.  Returns the ranked result list and the
explanation string exactly as the source does. -/
def runCorrelationAnalysis (g : GraphOracle) (artifacts : List Artifact)
    (depth : Int) (looseness : Int) (includeIncidents : Bool) :
    List ResEntry × String :=
  let looseness := max 0 (min 100 looseness)
  let strategies := artifacts.flatMap fun a =>
    buildArtifactStrategies a depth looseness includeIncidents g.fulltextIndex
  if strategies.isEmpty then ([], msgNoArtifacts)
  else
    let rawRows := rawRowsOf g strategies
    let tgMatches := rawRows.flatMap (resolveRow g)
    let aggregated := aggregate tgMatches
    let userVals := userInputValues artifacts
    let n := artifacts.length
    let formatted := aggregated.map fun p => formatActor userVals n p.1 p.2
    if formatted.isEmpty then ([], msgNoMatch)
    else
      let ranked := (sortByScoreDesc formatted).take 20
      let summaries := aggregated.map fun p =>
        (p.1, matchedCluesOf userVals (sortStr p.2.all_matches), sortStr p.2.all_matches)
      (ranked, g.llm summaries)

/-! ## General lemmas about the embedded operations -/

/-- Invariant preservation along a left fold. -/
theorem foldl_inv {α β : Type} (P : β → Prop) (f : β → α → β) :
    ∀ (l : List α) (init : β), P init → (∀ b a, a ∈ l → P b → P (f b a)) →
      P (l.foldl f init) := by
  intro l
  induction l with
  | nil => intro init h _; exact h
  | cons x xs ih =>
    intro init h hstep
    exact ih (f init x) (hstep init x (List.mem_cons_self x xs) h)
      fun b a ha hb => hstep b a (List.mem_cons_of_mem x ha) hb

/-- The fold used by `bestBlock` returns a block whose length bounds the
initial accumulator and every scanned block. -/
theorem foldl_best_ge (l : List (Nat × Nat × Nat)) :
    ∀ init : Nat × Nat × Nat,
      init.2.2 ≤ (l.foldl (fun acc c => if c.2.2 > acc.2.2 then c else acc) init).2.2 ∧
      ∀ c ∈ l, c.2.2 ≤ (l.foldl (fun acc c => if c.2.2 > acc.2.2 then c else acc) init).2.2 := by
  induction l with
  | nil => intro init; exact ⟨Nat.le_refl _, by intro c hc; cases hc⟩
  | cons x xs ih =>
    intro init
    have hstep : init.2.2 ≤ (if x.2.2 > init.2.2 then x else init).2.2 := by
      by_cases h : x.2.2 > init.2.2
      · simp only [if_pos h]; omega
      · simp only [if_neg h]
        omega
    have hx : x.2.2 ≤ (if x.2.2 > init.2.2 then x else init).2.2 := by
      by_cases h : x.2.2 > init.2.2
      · simp only [if_pos h]
        omega
      · simp only [if_neg h]; omega
    refine ⟨Nat.le_trans hstep (ih _).1, ?_⟩
    intro c hc
    rcases List.mem_cons.mp hc with rfl | hc
    · exact Nat.le_trans hx (by simpa using (ih (if c.2.2 > init.2.2 then c else init)).1)
    · exact (ih _).2 c hc

theorem lcp_le_left : ∀ a b : List Char, lcp a b ≤ a.length := by
  intro a
  induction a with
  | nil => intro b; cases b <;> simp [lcp]
  | cons x xs ih =>
    intro b
    cases b with
    | nil => simp [lcp]
    | cons y ys =>
      simp only [lcp, List.length_cons]
      by_cases h : x = y
      · simp only [if_pos h]; exact Nat.add_le_add_right (ih ys) 1
      · simp only [if_neg h]; omega

theorem lcp_le_right : ∀ a b : List Char, lcp a b ≤ b.length := by
  intro a
  induction a with
  | nil => intro b; cases b <;> simp [lcp]
  | cons x xs ih =>
    intro b
    cases b with
    | nil => simp [lcp]
    | cons y ys =>
      simp only [lcp, List.length_cons]
      by_cases h : x = y
      · simp only [if_pos h]; exact Nat.add_le_add_right (ih ys) 1
      · simp only [if_neg h]; omega

theorem lcp_self : ∀ a : List Char, lcp a a = a.length := by
  intro a
  induction a with
  | nil => simp [lcp]
  | cons x xs ih => simp [lcp, ih]

/-- Every scanned block records the longest common run at its position. -/
theorem allBlocks_spec {a b : List Char} {c : Nat × Nat × Nat}
    (hc : c ∈ allBlocks a b) :
    c.1 < a.length ∧ c.2.1 < b.length ∧ c.2.2 = lcp (a.drop c.1) (b.drop c.2.1) := by
  rcases List.mem_flatMap.mp hc with ⟨i, hi, hmem⟩
  rcases List.mem_map.mp hmem with ⟨j, hj, rfl⟩
  exact ⟨List.mem_range.mp hi, List.mem_range.mp hj, rfl⟩

/-- The best block's length is realised at its own position (as an upper
bound, enough for all size arguments). -/
theorem bestBlock_le_lcp (a b : List Char) :
    (bestBlock a b).2.2 ≤ lcp (a.drop (bestBlock a b).1) (b.drop (bestBlock a b).2.1) := by
  have h := foldl_inv
    (fun acc : Nat × Nat × Nat => acc.2.2 ≤ lcp (a.drop acc.1) (b.drop acc.2.1))
    (fun acc c => if c.2.2 > acc.2.2 then c else acc) (allBlocks a b) (0, 0, 0)
    (Nat.zero_le _) ?_
  · exact h
  · intro acc c hc hacc
    by_cases hgt : c.2.2 > acc.2.2
    · simp only [if_pos hgt]
      exact Nat.le_of_eq (allBlocks_spec hc).2.2
    · simp only [if_neg hgt]; exact hacc

/-- The best block is at least as long as the common run at any position. -/
theorem bestBlock_ge (a b : List Char) {i j : Nat} (hi : i < a.length)
    (hj : j < b.length) : lcp (a.drop i) (b.drop j) ≤ (bestBlock a b).2.2 := by
  have hmem : (i, j, lcp (a.drop i) (b.drop j)) ∈ allBlocks a b := by
    refine List.mem_flatMap.mpr ⟨i, List.mem_range.mpr hi, ?_⟩
    exact List.mem_map.mpr ⟨j, List.mem_range.mpr hj, rfl⟩
  exact (foldl_best_ge (allBlocks a b) (0, 0, 0)).2 _ hmem

theorem matchTotalF_le_left : ∀ (fuel : Nat) (a b : List Char),
    matchTotalF fuel a b ≤ a.length := by
  intro fuel
  induction fuel with
  | zero => intro a b; simp [matchTotalF]
  | succ n ih =>
    intro a b
    have hle := bestBlock_le_lcp a b
    have hlcp := lcp_le_left (a.drop (bestBlock a b).1) (b.drop (bestBlock a b).2.1)
    rcases hbb : bestBlock a b with ⟨i, j, k⟩
    rw [hbb] at hle hlcp
    dsimp only at hle hlcp
    simp only [matchTotalF, hbb]
    by_cases h0 : k = 0
    · simp [h0]
    · simp only [if_neg h0]
      have hk : k ≤ a.length - i := by
        have := List.length_drop i a
        omega
      have h1 : matchTotalF n (a.take i) (b.take j) ≤ (a.take i).length := ih _ _
      have h2 : matchTotalF n (a.drop (i + k)) (b.drop (j + k)) ≤
          (a.drop (i + k)).length := ih _ _
      have h3 : (a.take i).length ≤ i := by simp [List.length_take]
      have h4 : (a.drop (i + k)).length = a.length - (i + k) := List.length_drop _ _
      omega

theorem matchTotalF_le_right : ∀ (fuel : Nat) (a b : List Char),
    matchTotalF fuel a b ≤ b.length := by
  intro fuel
  induction fuel with
  | zero => intro a b; simp [matchTotalF]
  | succ n ih =>
    intro a b
    have hle := bestBlock_le_lcp a b
    have hlcp := lcp_le_right (a.drop (bestBlock a b).1) (b.drop (bestBlock a b).2.1)
    rcases hbb : bestBlock a b with ⟨i, j, k⟩
    rw [hbb] at hle hlcp
    dsimp only at hle hlcp
    simp only [matchTotalF, hbb]
    by_cases h0 : k = 0
    · simp [h0]
    · simp only [if_neg h0]
      have hk : k ≤ b.length - j := by
        have := List.length_drop j b
        omega
      have h1 : matchTotalF n (a.take i) (b.take j) ≤ (b.take j).length := ih _ _
      have h2 : matchTotalF n (a.drop (i + k)) (b.drop (j + k)) ≤
          (b.drop (j + k)).length := ih _ _
      have h3 : (b.take j).length ≤ j := by simp [List.length_take]
      have h4 : (b.drop (j + k)).length = b.length - (j + k) := List.length_drop _ _
      omega

theorem matchTotal_le_left (a b : List Char) : matchTotal a b ≤ a.length :=
  matchTotalF_le_left _ a b

theorem matchTotal_le_right (a b : List Char) : matchTotal a b ≤ b.length :=
  matchTotalF_le_right _ a b

theorem matchTotalF_nil_left : ∀ (fuel : Nat) (b : List Char),
    matchTotalF fuel [] b = 0 := by
  intro fuel b
  cases fuel with
  | zero => rfl
  | succ n =>
    have hbb : bestBlock [] b = (0, 0, 0) := by
      simp [bestBlock, allBlocks]
    simp [matchTotalF, hbb]

/-- On identical nonempty sequences the best block is the whole sequence. -/
theorem bestBlock_self {a : List Char} (h : a ≠ []) :
    bestBlock a a = (0, 0, a.length) := by
  have hpos : 0 < a.length := List.length_pos.mpr h
  have hge : a.length ≤ (bestBlock a a).2.2 := by
    have := bestBlock_ge a a hpos hpos
    simpa [lcp_self] using this
  have hle := bestBlock_le_lcp a a
  have hlcpL := lcp_le_left (a.drop (bestBlock a a).1) (a.drop (bestBlock a a).2.1)
  have hlcpR := lcp_le_right (a.drop (bestBlock a a).1) (a.drop (bestBlock a a).2.1)
  have hdl := List.length_drop (bestBlock a a).1 a
  have hdr := List.length_drop (bestBlock a a).2.1 a
  have hi : (bestBlock a a).1 = 0 := by omega
  have hj : (bestBlock a a).2.1 = 0 := by omega
  have hk : (bestBlock a a).2.2 = a.length := by omega
  calc bestBlock a a
      = ((bestBlock a a).1, (bestBlock a a).2.1, (bestBlock a a).2.2) := rfl
    _ = (0, 0, a.length) := by rw [hi, hj, hk]

theorem matchTotal_self (a : List Char) : matchTotal a a = a.length := by
  by_cases h : a = []
  · subst h; rfl
  · have hpos : 0 < a.length := List.length_pos.mpr h
    obtain ⟨n, hn⟩ : ∃ n, a.length + a.length = n + 1 := ⟨a.length + a.length - 1, by omega⟩
    unfold matchTotal
    rw [hn]
    simp only [matchTotalF, bestBlock_self h]
    have hne : a.length ≠ 0 := by omega
    simp only [if_neg hne]
    simp [matchTotalF_nil_left, List.drop_length]

theorem seqMatchScore_nonneg (a b : List Char) : 0 ≤ seqMatchScore a b := by
  unfold seqMatchScore
  by_cases h : a.length + b.length = 0
  · simp [h]
  · simp only [if_neg h]
    positivity

theorem seqMatchScore_le_one (a b : List Char) : seqMatchScore a b ≤ 1 := by
  unfold seqMatchScore
  by_cases h : a.length + b.length = 0
  · simp [h]
  · simp only [if_neg h]
    have hpos : (0 : ℚ) < (a.length : ℚ) + (b.length : ℚ) := by
      have := Nat.pos_of_ne_zero h
      exact_mod_cast this
    rw [div_le_one hpos]
    have h1 := matchTotal_le_left a b
    have h2 := matchTotal_le_right a b
    have : (2 * matchTotal a b : ℚ) ≤ ((a.length + b.length : ℕ) : ℚ) := by
      exact_mod_cast (by omega : 2 * matchTotal a b ≤ a.length + b.length)
    push_cast at this ⊢
    linarith

theorem seqMatchScore_self (a : List Char) : seqMatchScore a a = 1 := by
  unfold seqMatchScore
  by_cases h : a.length + a.length = 0
  · simp [h]
  · simp only [if_neg h]
    rw [matchTotal_self]
    have hpos : (0 : ℚ) < (a.length : ℚ) + (a.length : ℚ) := by
      have := Nat.pos_of_ne_zero h
      exact_mod_cast this
    field_simp
    ring

theorem simScore_nonneg (x y : String) : 0 ≤ simScore x y :=
  seqMatchScore_nonneg _ _

theorem simScore_le_one (x y : String) : simScore x y ≤ 1 :=
  seqMatchScore_le_one _ _

theorem simScore_eq_one (x y : String) (h : lowerStr x = lowerStr y) :
    simScore x y = 1 := by
  unfold simScore
  rw [h]
  exact seqMatchScore_self _

theorem simScore_congr (x y x' y' : String) (hx : lowerStr x = lowerStr x')
    (hy : lowerStr y = lowerStr y') : simScore x y = simScore x' y' := by
  unfold simScore
  rw [hx, hy]

/-! ## Rounding lemmas -/

theorem pyRound_nonneg (q : ℚ) (h : 0 ≤ q) : 0 ≤ pyRound q := by
  unfold pyRound
  have hfl : (0 : ℤ) ≤ ⌊q⌋ := Int.floor_nonneg.mpr h
  by_cases ht : q - ⌊q⌋ = 1 / 2
  · rw [if_pos ht]
    split <;> omega
  · rw [if_neg ht]
    exact Int.floor_nonneg.mpr (by linarith)

theorem pyRound_eval (q : ℚ) (k : ℤ) (h1 : (k : ℚ) - 1 / 2 < q)
    (h2 : q < (k : ℚ) + 1 / 2) : pyRound q = k := by
  have hfl : ⌊q + 1 / 2⌋ = k := by
    rw [Int.floor_eq_iff]
    refine ⟨by linarith, ?_⟩
    linarith
  have hne : q - ⌊q⌋ ≠ 1 / 2 := by
    intro ht
    have hq : q = (⌊q⌋ : ℚ) + 1 / 2 := by linarith
    have hlow : (k : ℚ) - 1 < (⌊q⌋ : ℚ) := by linarith
    have hhigh : (⌊q⌋ : ℚ) < (k : ℚ) := by linarith
    have hl : k - 1 < ⌊q⌋ := by exact_mod_cast hlow
    have hh : ⌊q⌋ < k := by exact_mod_cast hhigh
    omega
  unfold pyRound
  rw [if_neg hne, hfl]

/-! ## Sorting and deduplication lemmas -/

theorem insertLe_perm {α : Type} (le : α → α → Bool) (x : α) :
    ∀ l : List α, List.Perm (insertLe le x l) (x :: l) := by
  intro l
  induction l with
  | nil => simp [insertLe]
  | cons z zs ih =>
    simp only [insertLe]
    by_cases h : le x z
    · rw [if_pos h]
    · rw [if_neg h]
      exact (List.Perm.cons z ih).trans (List.Perm.swap x z zs)

theorem insertionSort_perm {α : Type} (le : α → α → Bool) (l : List α) :
    List.Perm (insertionSort le l) l := by
  induction l with
  | nil => exact List.Perm.refl _
  | cons x xs ih =>
    exact (insertLe_perm le x _).trans (List.Perm.cons x ih)

theorem mem_sortStr {x : String} {l : List String} : x ∈ sortStr l ↔ x ∈ l :=
  (insertionSort_perm _ l).mem_iff

theorem nodup_sortStr {l : List String} (h : l.Nodup) : (sortStr l).Nodup :=
  ((insertionSort_perm _ l).nodup_iff).mpr h

theorem mem_of_containsStr {l : List String} {x : String}
    (h : l.contains x = true) : x ∈ l := by
  simpa using h

theorem mem_addStr {l : List String} {s x : String} (h : x ∈ addStr l s) :
    x ∈ l ∨ x = s := by
  unfold addStr at h
  by_cases hc : l.contains s
  · rw [if_pos hc] at h
    exact Or.inl h
  · rw [if_neg hc] at h
    rcases List.mem_append.mp h with h | h
    · exact Or.inl h
    · exact Or.inr (by simpa using h)

theorem mem_foldl_addStr :
    ∀ (l : List String) (acc : List String) (x : String),
      x ∈ l.foldl addStr acc → x ∈ acc ∨ x ∈ l := by
  intro l
  induction l with
  | nil => intro acc x h; exact Or.inl h
  | cons s rest ih =>
    intro acc x h
    rcases ih (addStr acc s) x h with h' | h'
    · rcases mem_addStr h' with h'' | h''
      · exact Or.inl h''
      · exact Or.inr (by simp [h''])
    · exact Or.inr (List.mem_cons_of_mem s h')

theorem mem_dedupStr {l : List String} {x : String} (h : x ∈ dedupStr l) : x ∈ l := by
  rcases mem_foldl_addStr l [] x h with h' | h'
  · cases h'
  · exact h'

theorem nodup_addStr {l : List String} (s : String) (h : l.Nodup) :
    (addStr l s).Nodup := by
  unfold addStr
  by_cases hc : l.contains s
  · rwa [if_pos hc]
  · rw [if_neg hc]
    have hs : s ∉ l := fun hm => hc (by simpa using hm)
    simp [List.nodup_append, h, hs]

theorem nodup_foldl_addStr :
    ∀ (l : List String) (acc : List String), acc.Nodup → (l.foldl addStr acc).Nodup := by
  intro l
  induction l with
  | nil => intro acc h; exact h
  | cons s rest ih => intro acc h; exact ih (addStr acc s) (nodup_addStr s h)

theorem nodup_dedupStr (l : List String) : (dedupStr l).Nodup :=
  nodup_foldl_addStr l [] List.nodup_nil

/-! ## Lower-casing and colon-splitting lemmas -/

theorem lowChar_eq_colon_iff (c : Char) : lowChar c = ':' ↔ c = ':' := by
  constructor
  · intro h
    unfold lowChar at h
    by_cases hr : 65 ≤ c.toNat ∧ c.toNat ≤ 90
    · rw [if_pos hr] at h
      exfalso
      obtain ⟨n, h65, h90, hEq⟩ : ∃ n, 65 ≤ n ∧ n ≤ 90 ∧ c.toNat = n :=
        ⟨c.toNat, hr.1, hr.2, rfl⟩
      rw [hEq] at h
      interval_cases n <;> exact absurd h (by decide)
    · rwa [if_neg hr] at h
  · intro h
    subst h
    decide

theorem afterColon_map_lowChar :
    ∀ cs : List Char,
      afterColon (cs.map lowChar) = (afterColon cs).map (List.map lowChar) := by
  intro cs
  induction cs with
  | nil => rfl
  | cons c rest ih =>
    simp only [List.map_cons, afterColon]
    by_cases h : c = ':'
    · subst h
      rw [if_pos (by decide : lowChar ':' = ':'), if_pos rfl]
      rfl
    · have hl : lowChar c ≠ ':' := fun hh => h ((lowChar_eq_colon_iff c).mp hh)
      rw [if_neg hl, if_neg h, ih]

theorem clueOf_lower_mem {uv : List String} {m c : String}
    (h : clueOf uv m = some c) : lowerStr c ∈ uv := by
  unfold clueOf at h
  dsimp only at h
  have hmap : (lowerStr m).toList = m.toList.map lowChar := rfl
  rw [hmap, afterColon_map_lowChar] at h
  cases hca : afterColon m.toList with
  | none =>
    rw [hca] at h
    simp only [Option.map_none'] at h
    by_cases hc : uv.contains (lowerStr m)
    · rw [if_pos hc] at h
      cases h
      exact mem_of_containsStr hc
    · rw [if_neg hc] at h
      cases h
  | some porig =>
    rw [hca] at h
    simp only [Option.map_some'] at h
    by_cases hc : uv.contains (String.mk (porig.map lowChar))
    · rw [if_pos hc] at h
      cases h
      exact mem_of_containsStr hc
    · rw [if_neg hc] at h
      cases h

/-! ## Claim theorems -/

/-- Grounding oracle for the Scenario-C check: the store holds a canonical
node `Emotet`; the disambiguator is never needed. -/
def emotetOracle : GroundingOracle :=
  { lookup := fun v => if v = "Emotet" then [{ name := "Emotet", id := "node-1" }] else []
    resolve := fun _ _ => none }

/-- C9: for every pair of strings, the similarity used by grounding
(`SequenceMatcher(None, a.lower(), b.lower()).ratio()`) lies in `[0, 1]`, is
case-insensitive (it depends only on the lower-casings of its arguments),
and equals exactly `1.0` whenever the strings are equal up to case; in
particular, grounding `"Emotet"` against an existing canonical node named
`"Emotet"` scores `1.0` and accepts the existing node
(`is_new = false`, `existing_id` set, `normalized_value = "Emotet"`). -/
theorem similarity_bounds_case_insensitive_exact :
    (∀ a b : String, 0 ≤ simScore a b ∧ simScore a b ≤ 1 ∧
      (lowerStr a = lowerStr b → simScore a b = 1)) ∧
    (∀ a b a' b' : String, lowerStr a = lowerStr a' → lowerStr b = lowerStr b' →
      simScore a b = simScore a' b') ∧
    simScore "Emotet" "Emotet" = 1 ∧
    groundEntity emotetOracle { type := "Malware", value := "Emotet" } =
      { type := "Malware", value := "Emotet", normalized_value := some "Emotet",
        existing_id := some "node-1", is_new := false } := by
  have hsim : simScore "Emotet" "Emotet" = 1 := simScore_eq_one _ _ rfl
  refine ⟨fun a b => ⟨simScore_nonneg a b, simScore_le_one a b, simScore_eq_one a b⟩,
    fun a b a' b' hx hy => simScore_congr a b a' b' hx hy, hsim, ?_⟩
  simp only [groundEntity, emotetOracle, candScores, maxByScore]
  norm_num [hsim]

/-- Closed instance of `similarity_bounds_case_insensitive_exact`, with its
hypotheses discharged on concrete strings. -/
theorem similarity_bounds_case_insensitive_exact_witness :
    (0 ≤ simScore "AbC" "aBc" ∧ simScore "AbC" "aBc" ≤ 1 ∧ simScore "AbC" "aBc" = 1) ∧
    simScore "Foo" "BAR" = simScore "foo" "bar" := by
  refine ⟨⟨(similarity_bounds_case_insensitive_exact.1 "AbC" "aBc").1,
    (similarity_bounds_case_insensitive_exact.1 "AbC" "aBc").2.1,
    (similarity_bounds_case_insensitive_exact.1 "AbC" "aBc").2.2 (by decide)⟩,
    similarity_bounds_case_insensitive_exact.2.1 "Foo" "BAR" "foo" "bar"
      (by decide) (by decide)⟩

/-- C2 (counterexample): cleaning and splitting the raw value
`"1.2.3.4:8080,8443"` with declared type `Indicator` does *not* yield three
entity candidates — composite splitting only applies to `IP`-typed entities,
and even that keeps only the IP.  (The `Entity` schema does not even admit an
`Indicator` type; the `IP` case is included below.) -/
theorem indicator_socket_value_not_split_three :
    (cleanAndSplit { type := "Indicator", value := "1.2.3.4:8080,8443" }).length ≠ 3 ∧
    (cleanAndSplit { type := "IP", value := "1.2.3.4:8080,8443" }).length ≠ 3 := by
  decide

/-- C2 (amended): an `Indicator`-typed `"1.2.3.4:8080,8443"` passes through
`_clean_and_split` unchanged as one entity; an `IP`-typed one yields exactly
one entity holding just the IP `"1.2.3.4"` (the source drops the port list
with an explicit comment), not one entity per socket. -/
theorem clean_and_split_socket_behavior :
    (cleanAndSplit { type := "Indicator", value := "1.2.3.4:8080,8443" }).map Entity.value
      = ["1.2.3.4:8080,8443"] ∧
    (cleanAndSplit { type := "IP", value := "1.2.3.4:8080,8443" }).map Entity.value
      = ["1.2.3.4"] := by
  decide

/-- C8: for every artifact and depth in `1..3`, the seed-expansion strategy
is built with `minLevel = 1`, `maxLevel = max(3, depth+1)` (so `3` at depths
1–2 and `4` at depth 3), a hard cap of 200 explored paths, the fixed
relationship allowlist `relFilter`, and the fixed label allowlist; disabling
incident inclusion removes exactly the `Incident` and `AttackStep`
(sequencing) labels while every other parameter is unchanged. -/
theorem expansion_strategy_parameters (a : Artifact) (depth looseness : Int)
    (inc : Bool) (ft : Option String) (h1 : 1 ≤ depth) (h3 : depth ≤ 3) :
    (buildArtifactStrategies a depth looseness inc ft)[3]? =
      some (Strategy.expand (escapeQuote a.value) relFilter (labelAllow inc) 1
        (max 3 (depth + 1)) 200) ∧
    (depth ≤ 2 → max 3 (depth + 1) = 3) ∧
    (depth = 3 → max 3 (depth + 1) = 4) ∧
    labelAllow true =
      "+(ThreatGroup|Campaign|Actor|Incident|Malware|Indicator|Vulnerability|AttackTechnique|Tool|Identity|AttackStep)" ∧
    labelAllow false =
      "+(ThreatGroup|Campaign|Actor|Malware|Indicator|Vulnerability|AttackTechnique|Tool|Identity)" := by
  refine ⟨?_, ?_, ?_, by decide, by decide⟩
  · simp [buildArtifactStrategies]
  · intro h2
    have : depth + 1 ≤ 3 := by omega
    exact max_eq_left this
  · intro h2
    subst h2
    decide

/-- Closed instance of `expansion_strategy_parameters` at depth 2 with
incidents disabled. -/
theorem expansion_strategy_parameters_witness :
    (buildArtifactStrategies { type := "IP", value := "1.2.3.4" } 2 30 false none)[3]? =
      some (Strategy.expand "1.2.3.4" relFilter (labelAllow false) 1 3 200) := by
  have h := expansion_strategy_parameters { type := "IP", value := "1.2.3.4" } 2 30 false
    none (by norm_num) (by norm_num)
  rw [h.1, h.2.1 (by norm_num)]
  rw [show escapeQuote "1.2.3.4" = "1.2.3.4" from by decide]

/-- The `TGMatch` a direct `ThreatGroup` row turns into: raw distance kept
as reported. -/
def tgOfRow (r : Row) : TGMatch :=
  { label := r.label, dist := r.dist, matchStrs := r.matchStrs,
    raw_score := r.raw_score.getD 0 }

/-- C10: in the actor-resolution loop, when a raw row reports distance 0
(exact match) and its type is not `ThreatGroup`, the falsy distance is
replaced by 10 (`r.get('dist', 10) or 10`) before the hop penalty is added,
so every resolved actor gets distance 11 (row typed `Incident`) or 12
(anything else) — proximity at most `1/12` — while a direct `ThreatGroup`
row keeps its reported distance 0. -/
theorem nonactor_zero_distance_replaced (g : GraphOracle) (r : Row)
    (h0 : r.dist = 0) :
    (rowType r = "ThreatGroup" →
      resolveRow g r = [tgOfRow r] ∧ (tgOfRow r).dist = 0) ∧
    (rowType r ≠ "ThreatGroup" →
      ∀ t ∈ resolveRow g r,
        t.dist = (if rowType r = "Incident" then 11 else 12) ∧
        (1 : ℚ) / (1 + (t.dist : ℚ)) ≤ 1 / 12) := by
  constructor
  · intro hTG
    refine ⟨?_, h0⟩
    simp only [resolveRow, if_pos hTG, tgOfRow]
  · intro hTG t ht
    simp only [resolveRow, if_neg hTG, h0, if_pos rfl] at ht
    rcases List.mem_map.mp ht with ⟨tg, htg, rfl⟩
    by_cases hInc : rowType r = "Incident"
    · refine ⟨by simp [hInc], ?_⟩
      simp only [hInc, if_pos rfl]
      norm_num
    · refine ⟨by simp [hInc], ?_⟩
      simp only [if_neg hInc]
      norm_num

/-- Oracle and row for the closed instance of the distance-replacement
theorem: a malware row at reported distance 0 resolving to one actor. -/
def distReplOracle : GraphOracle :=
  { fulltextIndex := none
    run := fun _ => Except.ok []
    incidentTGs := fun _ => []
    resolveTGs := fun v => if v = "mal-x" then [some "TG-W"] else []
    llm := fun _ => "" }

/-- The malware row used by the witness: an exact match (`dist = 0`). -/
def malRow : Row :=
  { label := some "mal-x", type := some "Malware", dist := 0,
    matchStrs := ["ExactMatch:mal-x"], raw_score := none }

/-- The actor match the witness row resolves to. -/
def tgW : TGMatch :=
  { label := some "TG-W", dist := 12,
    matchStrs := ["ExactMatch:mal-x", "LinkedVia:mal-x"], raw_score := 0 }

/-- Closed instance of `nonactor_zero_distance_replaced`: the resolved
actor's distance is 12, not the hop penalty 2 alone. -/
theorem nonactor_zero_distance_replaced_witness :
    (resolveRow distReplOracle malRow).map TGMatch.dist = [12] := by
  have hr : resolveRow distReplOracle malRow = [tgW] := by decide
  have hmem : tgW ∈ resolveRow distReplOracle malRow := by
    rw [hr]
    exact List.mem_singleton.mpr rfl
  have h := ((nonactor_zero_distance_replaced distReplOracle malRow rfl).2
    (by decide) _ hmem).1
  rw [hr, List.map_cons, List.map_nil, h]
  rfl

/-- The zero aggregate used by the clamp witness. -/
def aggZero : Agg :=
  { min_dist := 0, all_matches := [], total_raw_score := 0, match_count := 0 }

/-- C5: the exposed `percent` of every formatted actor is
`min(round(score*100, 1), 100.0)`, and for a nonnegative combined score it
always lies within `[0, 100]`. -/
theorem percent_clamped (userVals : List String) (nArt : Nat) (label : String)
    (agg : Agg) (h : 0 ≤ combinedScore userVals nArt agg) :
    (formatActor userVals nArt label agg).percent =
      min (round1 (combinedScore userVals nArt agg * 100)) 100 ∧
    0 ≤ (formatActor userVals nArt label agg).percent ∧
    (formatActor userVals nArt label agg).percent ≤ 100 := by
  have hp : (formatActor userVals nArt label agg).percent =
      min (round1 (combinedScore userVals nArt agg * 100)) 100 := rfl
  refine ⟨hp, ?_, ?_⟩
  · rw [hp]
    refine le_min ?_ (by norm_num)
    unfold round1
    have h10 : (0 : ℚ) ≤ combinedScore userVals nArt agg * 100 * 10 :=
      mul_nonneg (mul_nonneg h (by norm_num)) (by norm_num)
    have hz := pyRound_nonneg _ h10
    have hc : (0 : ℚ) ≤ (pyRound (combinedScore userVals nArt agg * 100 * 10) : ℚ) := by
      exact_mod_cast hz
    exact div_nonneg hc (by norm_num)
  · rw [hp]
    exact min_le_right _ _

/-- Closed instance of `percent_clamped` on a concrete aggregate. -/
theorem percent_clamped_witness :
    0 ≤ combinedScore [] 1 aggZero ∧
    0 ≤ (formatActor [] 1 "X" aggZero).percent ∧
    (formatActor [] 1 "X" aggZero).percent ≤ 100 := by
  have hc : combinedScore [] 1 aggZero = 2 / 5 := by
    simp only [combinedScore, aggZero, show sortStr [] = [] from rfl,
      show matchedCluesOf [] [] = [] from rfl]
    norm_num [min_def]
  have hpos : 0 ≤ combinedScore [] 1 aggZero := by
    rw [hc]
    norm_num
  exact ⟨hpos, (percent_clamped [] 1 "X" aggZero hpos).2.1,
    (percent_clamped [] 1 "X" aggZero hpos).2.2⟩

/-- Store oracle for the matched-clue case counterexample: the contains
sub-query for `"emotet"` finds the `ThreatGroup` node named `Emotet`. -/
def caseOracle : GraphOracle :=
  { fulltextIndex := none
    run := fun s =>
      match s with
      | Strategy.containsMatch "emotet" =>
        Except.ok [{ label := some "Emotet", type := some "ThreatGroup", dist := 1,
                     matchStrs := ["PartialMatch:Emotet"] }]
      | _ => Except.ok []
    incidentTGs := fun _ => []
    resolveTGs := fun _ => []
    llm := fun _ => "" }

/-- C4 (counterexample): the caller submits the artifact value `"emotet"`,
but the reported matched clue is the node-cased string `"Emotet"`, which
equals no caller-supplied artifact value — the clue set is not a subset of
the input values under string equality. -/
theorem matched_clue_case_differs_from_input :
    (runCorrelationAnalysis caseOracle [{ type := "Malware", value := "emotet" }]
        1 30 true).1.map ResEntry.matchesStr = ["Emotet"] ∧
    ([{ type := "Malware", value := "emotet" }] : List Artifact).map Artifact.value
      = ["emotet"] ∧
    ("Emotet" : String) ∉ (["emotet"] : List String) := by
  refine ⟨rfl, rfl, ?_⟩
  decide

/-- C4 (amended): every reported matched clue equals a caller artifact value
*up to case* — its lower-casing is the lower-casing of some distinct input
value — and the clue list is duplicate-free.  (Exact string equality can
fail because the clue keeps the matched evidence string's original case
while membership is tested on lower-casings.) -/
theorem matched_clues_subset_upto_case (artifacts : List Artifact)
    (allM : List String) :
    (∀ c ∈ matchedCluesOf (userInputValues artifacts) allM,
      ∃ a ∈ artifacts, lowerStr c = lowerStr a.value) ∧
    (matchedCluesOf (userInputValues artifacts) allM).Nodup := by
  constructor
  · intro c hc
    have h1 : c ∈ dedupStr (allM.filterMap (clueOf (userInputValues artifacts))) :=
      mem_sortStr.mp hc
    have h2 := mem_dedupStr h1
    rcases List.mem_filterMap.mp h2 with ⟨m, _, hcl⟩
    have h3 : lowerStr c ∈ userInputValues artifacts := clueOf_lower_mem hcl
    have h4 := mem_dedupStr h3
    rcases List.mem_map.mp h4 with ⟨a, ha, hEq⟩
    exact ⟨a, ha, hEq.symm⟩
  · exact nodup_sortStr (nodup_dedupStr _)

/-- Closed instance of `matched_clues_subset_upto_case` on the
counterexample's data: the clue `"Emotet"` matches the sole input value
`"emotet"` up to case. -/
theorem matched_clues_subset_upto_case_witness :
    lowerStr "Emotet" = lowerStr "emotet" := by
  rcases (matched_clues_subset_upto_case [{ type := "Malware", value := "emotet" }]
    ["PartialMatch:Emotet"]).1 "Emotet" (by decide) with ⟨a, ha, hEq⟩
  rcases List.mem_singleton.mp ha with rfl
  exact hEq

/-- The "treat as new" result of grounding: defaults applied, nothing else
changed (`normalizedValue = cleanedValue`, `is_new = true`). -/
def groundedNew (e : Entity) : Entity :=
  { e with normalized_value := some e.value, is_new := true }

/-- The accepted-existing result of grounding for a best candidate. -/
def groundedAccept (e : Entity) (best : DbRow) : Entity :=
  { e with
      normalized_value := some best.name
      existing_id := some best.id
      is_new := false }

/-- The result of delegating an ambiguous match to the LLM resolver:
fail-open to "new" unless the resolver affirms a match. -/
def groundedDelegate (e : Entity) (res : Option Resolution) : Entity :=
  match res with
  | some r =>
    if r.is_match then
      { e with
          normalized_value := r.normalized_name
          existing_id := r.matched_id
          is_new := false }
    else groundedNew e
  | none => groundedNew e

/-- C3 (amended): with the hard-coded thresholds 0.9 / 0.6, the decision
tiers of `_ground_entity` are strict on the accept side: a best score
*strictly above* 0.9 accepts the candidate without consulting the resolver;
a best score in the half-open interval (0.6, 0.9] — including exactly 0.9 —
is delegated to the resolver; a best score of at most 0.6, or an empty
candidate list, marks the entity new with `normalizedValue = cleanedValue`.
(The frozen claim's closed boundaries `score ≥ high` and `score ∈ [mid,
high)` do not hold; see the counterexample at exactly 0.9.) -/
theorem grounding_tier_boundaries (g : GroundingOracle) (e : Entity) :
    (g.lookup e.value = [] → groundEntity g e = groundedNew e) ∧
    (∀ best, maxByScore (candScores e (g.lookup e.value)) = some best →
      (best.2 > 0.9 → groundEntity g e = groundedAccept e best.1) ∧
      (0.6 < best.2 ∧ best.2 ≤ 0.9 →
        groundEntity g e = groundedDelegate e (g.resolve e.value (g.lookup e.value))) ∧
      (best.2 ≤ 0.6 → groundEntity g e = groundedNew e)) := by
  constructor
  · intro hnil
    simp only [groundEntity, hnil, List.isEmpty_nil, if_pos]
    rfl
  · intro best hbest
    by_cases hnil : g.lookup e.value = []
    · rw [hnil] at hbest
      simp [candScores, maxByScore] at hbest
    · have hne : (g.lookup e.value).isEmpty = false := by
        simpa [List.isEmpty_iff] using hnil
      refine ⟨?_, ?_, ?_⟩
      · intro hhi
        simp only [groundEntity, hne, Bool.false_eq_true, if_false, hbest, if_pos hhi]
        simp [groundedAccept]
      · intro ⟨hmid, hhi⟩
        have hnot : ¬ best.2 > 0.9 := by
          intro hc
          have : (0.9 : ℚ) = 9 / 10 := by norm_num
          linarith [hc, hhi, this]
        simp only [groundEntity, hne, Bool.false_eq_true, if_false, hbest, if_neg hnot,
          if_pos hmid]
        unfold groundedDelegate groundedNew
        cases g.resolve e.value (g.lookup e.value) with
        | none => rfl
        | some r =>
          by_cases hm : r.is_match
          · simp only [hm, if_pos rfl]
          · simp only [hm, Bool.false_eq_true, if_false]
      · intro hlo
        have hnot : ¬ best.2 > 0.9 := by
          intro hc
          have h9 : (0.9 : ℚ) = 9 / 10 := by norm_num
          have h6 : (0.6 : ℚ) = 6 / 10 := by norm_num
          nlinarith [hc, hlo]
        have hnot2 : ¬ best.2 > 0.6 := by
          intro hc
          exact absurd hlo (not_le.mpr hc)
        simp only [groundEntity, hne, Bool.false_eq_true, if_false, hbest, if_neg hnot,
          if_neg hnot2]
        simp [groundedNew]

set_option maxRecDepth 8000 in
/-- A concrete pair of ten-character strings whose similarity is exactly
0.9: they share the first nine characters. -/
theorem simScore_boundary_example : simScore "abcdefghij" "abcdefghiz" = 9 / 10 := by
  have hm : matchTotal (lowerStr "abcdefghij").toList (lowerStr "abcdefghiz").toList
      = 9 := by decide
  have hl1 : (lowerStr "abcdefghij").toList.length = 10 := by decide
  have hl2 : (lowerStr "abcdefghiz").toList.length = 10 := by decide
  simp only [simScore, seqMatchScore, hm, hl1, hl2]
  norm_num

/-- Grounding oracle sitting exactly at the high threshold: the single
candidate scores 0.9 against the entity value, and the resolver errors
(models the LLM call failing, which the source swallows). -/
def gBoundary : GroundingOracle :=
  { lookup := fun v =>
      if v = "abcdefghij" then [{ name := "abcdefghiz", id := "node-9" }] else []
    resolve := fun _ _ => none }

set_option maxRecDepth 8000 in
/-- C3 (counterexample): at a best score of exactly 0.9 — the high
threshold — the claim demands unconditional acceptance (`isNew = false`,
`existingId` set) without consulting the disambiguation collaborator, but
`_ground_entity` (strict `> 0.9`) instead delegates; with the collaborator
failing open, the entity stays new and gets no `existingId`. -/
theorem boundary_high_threshold_delegates :
    simScore "abcdefghij" "abcdefghiz" = 9 / 10 ∧
    (0.9 : ℚ) = 9 / 10 ∧
    (groundEntity gBoundary { type := "Malware", value := "abcdefghij" }).is_new = true ∧
    (groundEntity gBoundary { type := "Malware", value := "abcdefghij" }).existing_id
      = none := by
  have hg : groundEntity gBoundary { type := "Malware", value := "abcdefghij" } =
      groundedNew { type := "Malware", value := "abcdefghij" } := by
    simp only [groundEntity, gBoundary]
    norm_num [candScores, maxByScore, simScore_boundary_example, groundedNew]
  refine ⟨simScore_boundary_example, by norm_num, ?_, ?_⟩ <;> rw [hg] <;> rfl

/-- Closed instance of `grounding_tier_boundaries`: the 0.9-scoring
candidate lands in the delegation tier. -/
theorem grounding_tier_boundaries_witness :
    groundEntity gBoundary { type := "Malware", value := "abcdefghij" } =
      groundedDelegate { type := "Malware", value := "abcdefghij" }
        (gBoundary.resolve "abcdefghij" (gBoundary.lookup "abcdefghij")) := by
  have hbest : maxByScore (candScores { type := "Malware", value := "abcdefghij" }
      (gBoundary.lookup "abcdefghij")) =
      some ({ name := "abcdefghiz", id := "node-9" },
        simScore "abcdefghij" "abcdefghiz") := rfl
  have h := ((grounding_tier_boundaries gBoundary
    { type := "Malware", value := "abcdefghij" }).2 _ hbest).2.1
  simp only [simScore_boundary_example] at h
  exact h ⟨by norm_num, by norm_num⟩

/-- The oracle of an entirely unreachable store: `Neo4jClient._initialize`
leaves `driver = None` after a connection failure and `query` then returns
`[]` for every call, so every sub-query and resolution query answers with an
empty, non-error result and index detection yields nothing. -/
def deadStoreOracle : GraphOracle :=
  { fulltextIndex := none
    run := fun _ => Except.ok []
    incidentTGs := fun _ => []
    resolveTGs := fun _ => []
    llm := fun _ => "AI Analysis" }

/-- The oracle of a healthy store whose graph simply contains no matching
data: field for field the same function as `deadStoreOracle`, which is
exactly why the two situations cannot be told apart. -/
def emptyStoreOracle : GraphOracle :=
  { fulltextIndex := none
    run := fun _ => Except.ok []
    incidentTGs := fun _ => []
    resolveTGs := fun _ => []
    llm := fun _ => "AI Analysis" }

/-- A correlation run over an all-ok-empty oracle collects no rows. -/
theorem rawRowsOf_ok_empty (g : GraphOracle) (h : ∀ s, g.run s = Except.ok []) :
    ∀ l, rawRowsOf g l = [] := by
  intro l
  induction l with
  | nil => rfl
  | cons s rest ih =>
    simp only [rawRowsOf, List.flatMap_cons, h s] at *
    simpa using ih

/-- C7 (counterexample): with the graph store entirely unreachable, a
correlation request for a genuine artifact returns the ordinary
"no matching threat group" empty result — the very same value the healthy
empty store returns — rather than an error distinct from an empty result. -/
theorem unreachable_store_indistinguishable :
    runCorrelationAnalysis deadStoreOracle [{ type := "IP", value := "1.2.3.4" }]
        2 30 true = ([], msgNoMatch) ∧
    runCorrelationAnalysis emptyStoreOracle [{ type := "IP", value := "1.2.3.4" }]
        2 30 true = ([], msgNoMatch) := by
  exact ⟨rfl, rfl⟩

/-- C7 (amended): correlation never raises for data-related conditions and
always returns a (possibly empty) list plus an explanation string — an empty
artifact list yields `([], msgNoArtifacts)` against *any* store oracle — but
a store that is entirely unreachable is *not* surfaced as a distinct error:
every request against it produces an empty result list with one of the two
ordinary data-condition messages. -/
theorem correlation_total_and_swallows_failure (g : GraphOracle)
    (artifacts : List Artifact) (depth looseness : Int) (inc : Bool) :
    (artifacts = [] →
      runCorrelationAnalysis g artifacts depth looseness inc = ([], msgNoArtifacts)) ∧
    (runCorrelationAnalysis deadStoreOracle artifacts depth looseness inc
        = ([], msgNoArtifacts) ∨
     runCorrelationAnalysis deadStoreOracle artifacts depth looseness inc
        = ([], msgNoMatch)) := by
  constructor
  · intro h
    subst h
    rfl
  · cases artifacts with
    | nil => exact Or.inl rfl
    | cons a rest =>
      right
      have hraw := rawRowsOf_ok_empty deadStoreOracle (fun _ => rfl)
      simp only [runCorrelationAnalysis]
      simp only [hraw]
      simp [buildArtifactStrategies, aggregate, msgNoMatch]

/-- Closed instance of `correlation_total_and_swallows_failure`: the empty
artifact list returns the explanatory no-artifact message. -/
theorem correlation_total_and_swallows_failure_witness :
    runCorrelationAnalysis deadStoreOracle [] 1 30 true = ([], msgNoArtifacts) :=
  (correlation_total_and_swallows_failure deadStoreOracle [] 1 30 true).1 rfl

/-- Store oracle where the exact-match sub-query raises while its siblings
return no rows, and where — as the Cypher `CONTAINS toLower('')` condition
of the resolution query makes true of any populated graph — resolving the
empty value reaches a threat group. -/
def failingOracle : GraphOracle :=
  { fulltextIndex := none
    run := fun s =>
      match s with
      | Strategy.exact _ => Except.error "boom"
      | _ => Except.ok []
    incidentTGs := fun _ => []
    resolveTGs := fun v => if v = "" then [some "GhostTG"] else []
    llm := fun _ => "" }

/-- The same oracle with the failing strategy really contributing nothing
(`Except.ok []`), i.e. the behaviour the claim asserts. -/
def failingOracleSilenced : GraphOracle :=
  { fulltextIndex := none
    run := fun _ => Except.ok []
    incidentTGs := fun _ => []
    resolveTGs := fun v => if v = "" then [some "GhostTG"] else []
    llm := fun _ => "" }

/-- C6 (counterexample): when the exact-match strategy raises, the run does
not merely drop that strategy — the raised error becomes a `QueryError`
sentinel row that is itself resolved against the graph (with an empty
value), and the actor it reaches appears in the results; had the failed
strategy truly contributed nothing, the result would have been empty. -/
theorem failed_strategy_adds_actor :
    (runCorrelationAnalysis failingOracle [{ type := "Indicator", value := "abc" }]
        1 30 true).1.map ResEntry.label = ["GhostTG"] ∧
    runCorrelationAnalysis failingOracleSilenced
        [{ type := "Indicator", value := "abc" }] 1 30 true = ([], msgNoMatch) := by
  exact ⟨rfl, rfl⟩

/-- The actor match created from a failed strategy's sentinel row. -/
def ghostMatch (e tg : String) : TGMatch :=
  { label := some tg, dist := 10001,
    matchStrs := ["QueryError: " ++ e, "LinkedVia:None"], raw_score := 0 }

/-- C6 (amended): a failing sub-query does not abort the run and its
siblings still execute, but instead of contributing nothing it contributes
the sentinel row `{'label': None, 'type': 'QueryError', 'dist': 9999}`,
which is then resolved against the graph with an empty value (distance
`9999 → 10001` after the non-incident hop penalty); whatever threat groups
that resolution returns gain evidence entries because of the failure. -/
theorem failed_strategy_sentinel_row (g : GraphOracle) (e : String)
    (pre post : List Strategy) (s : Strategy) (hs : g.run s = Except.error e) :
    rawRowsOf g (pre ++ s :: post) =
      rawRowsOf g pre ++ errRow e :: rawRowsOf g post ∧
    resolveRow g (errRow e) = (truthyNames (g.resolveTGs "")).map (ghostMatch e) := by
  constructor
  · simp [rawRowsOf, List.flatMap_append, List.flatMap_cons, hs]
  · have h1 : rowType (errRow e) = "QueryError" := rfl
    have hTG : ¬ rowType (errRow e) = "ThreatGroup" := by rw [h1]; decide
    have hInc : ¬ rowType (errRow e) = "Incident" := by rw [h1]; decide
    simp only [resolveRow, if_neg hTG, if_neg hInc, findTGs]
    simp [errRow, ghostMatch, linkedVia]

/-- Closed instance of `failed_strategy_sentinel_row` on `failingOracle`. -/
theorem failed_strategy_sentinel_row_witness :
    resolveRow failingOracle (errRow "boom") = [ghostMatch "boom" "GhostTG"] := by
  have h := (failed_strategy_sentinel_row failingOracle "boom" [] []
    (Strategy.exact "abc") rfl).2
  rw [h]
  rfl

/-- The artifact used by the duplicate-submission scenario. -/
def artC1 : Artifact := { type := "Indicator", value := "abc" }

/-- Store oracle for the duplicate-submission scenario: the contains
sub-query for `"abc"` finds the threat group `TG1` at distance 1; nothing
else matches. -/
def dupOracle : GraphOracle :=
  { fulltextIndex := none
    run := fun s =>
      match s with
      | Strategy.containsMatch "abc" =>
        Except.ok [{ label := some "TG1", type := some "ThreatGroup", dist := 1,
                     matchStrs := ["PartialMatch:abc"] }]
      | _ => Except.ok []
    incidentTGs := fun _ => []
    resolveTGs := fun _ => []
    llm := fun _ => "" }

/-- `TG1`'s aggregate when `artC1` is submitted once (`0 + 0` mirrors the
`total_raw_score` accumulation from its initial 0). -/
def aggSingle : Agg :=
  { min_dist := 1, all_matches := ["PartialMatch:abc"], total_raw_score := 0 + 0,
    match_count := 1 }

/-- `TG1`'s aggregate when `artC1` is submitted twice: the evidence set and
minimum distance are unchanged, only the match count (and the raw-score sum)
grows. -/
def aggDouble : Agg :=
  { min_dist := 1, all_matches := ["PartialMatch:abc"], total_raw_score := 0 + 0 + 0,
    match_count := 2 }

theorem dupRunSingle : (runCorrelationAnalysis dupOracle [artC1] 1 30 true).1
    = [formatActor ["abc"] 1 "TG1" aggSingle] := rfl

theorem dupRunDouble : (runCorrelationAnalysis dupOracle [artC1, artC1] 1 30 true).1
    = [formatActor ["abc"] 2 "TG1" aggDouble] := rfl

theorem dupScoreSingle : (formatActor ["abc"] 1 "TG1" aggSingle).score = 7 / 10 := by
  have hsort : sortStr aggSingle.all_matches = ["PartialMatch:abc"] := by decide
  have hclues : matchedCluesOf ["abc"] ["PartialMatch:abc"] = ["abc"] := by decide
  have hprov : (["PartialMatch:abc"].any fun m => hasSub "Incident" m || hasSub "incident" m)
      = false := by decide
  have hcomb : combinedScore ["abc"] 1 aggSingle = 7 / 10 := by
    simp only [combinedScore, hsort, hclues, hprov]
    norm_num [aggSingle, min_def]
  simp only [formatActor, hcomb, round3]
  rw [show (7 : ℚ) / 10 * 1000 = 700 by norm_num]
  rw [pyRound_eval 700 700 (by norm_num) (by norm_num)]
  norm_num

theorem dupScoreDouble : (formatActor ["abc"] 2 "TG1" aggDouble).score = 9 / 20 := by
  have hsort : sortStr aggDouble.all_matches = ["PartialMatch:abc"] := by decide
  have hclues : matchedCluesOf ["abc"] ["PartialMatch:abc"] = ["abc"] := by decide
  have hprov : (["PartialMatch:abc"].any fun m => hasSub "Incident" m || hasSub "incident" m)
      = false := by decide
  have hcomb : combinedScore ["abc"] 2 aggDouble = 9 / 20 := by
    simp only [combinedScore, hsort, hclues, hprov]
    norm_num [aggDouble, min_def]
  simp only [formatActor, hcomb, round3]
  rw [show (9 : ℚ) / 20 * 1000 = 450 by norm_num]
  rw [pyRound_eval 450 450 (by norm_num) (by norm_num)]
  norm_num

/-- C1 (counterexample): the same graph, the same matched artifact value —
submitted once the actor scores 0.7, submitted twice (a duplicate value)
it scores 0.45: duplicate artifact values are *not* deduplicated before the
breadth term is computed, and the returned score changes. -/
theorem breadth_duplicate_input_changes_score :
    (runCorrelationAnalysis dupOracle [artC1] 1 30 true).1.map ResEntry.score
      = [7 / 10] ∧
    (runCorrelationAnalysis dupOracle [artC1, artC1] 1 30 true).1.map ResEntry.score
      = [9 / 20] ∧
    ((7 : ℚ) / 10 ≠ 9 / 20) := by
  refine ⟨?_, ?_, by norm_num⟩
  · rw [dupRunSingle, List.map_cons, List.map_nil, dupScoreSingle]
  · rw [dupRunDouble, List.map_cons, List.map_nil, dupScoreDouble]

/-- C1 (amended): the breadth denominator is the raw length of the
submitted artifact list, duplicates included
(`len(matched_clues) / max(1, len(artifacts))`, with the deduplication
applied only to the numerator's clue set).  Consequently, for a fixed
aggregate the combined score is antitone in the artifact count, and
submitting the same artifact value twice in the concrete scenario lowers
the actor's score from 0.7 to 0.45 instead of leaving it unchanged. -/
theorem breadth_denominator_counts_duplicates :
    (∀ (uv : List String) (agg : Agg) (n m : Nat), n ≤ m →
      combinedScore uv m agg ≤ combinedScore uv n agg) ∧
    (runCorrelationAnalysis dupOracle [artC1] 1 30 true).1.map ResEntry.score
      = [7 / 10] ∧
    (runCorrelationAnalysis dupOracle [artC1, artC1] 1 30 true).1.map ResEntry.score
      = [9 / 20] := by
  refine ⟨?_, ?_, ?_⟩
  · intro uv agg n m hnm
    simp only [combinedScore]
    have hk : (0 : ℚ) ≤ ((matchedCluesOf uv (sortStr agg.all_matches)).length : ℚ) := by
      positivity
    have hbpos : (0 : ℚ) < ((max 1 n : ℕ) : ℚ) := by
      exact_mod_cast Nat.lt_of_lt_of_le Nat.zero_lt_one (le_max_left 1 n)
    have hle : ((max 1 n : ℕ) : ℚ) ≤ ((max 1 m : ℕ) : ℚ) := by
      exact_mod_cast max_le_max (le_refl 1) hnm
    have hdiv : ((matchedCluesOf uv (sortStr agg.all_matches)).length : ℚ) /
          ((max 1 m : ℕ) : ℚ) ≤
        ((matchedCluesOf uv (sortStr agg.all_matches)).length : ℚ) /
          ((max 1 n : ℕ) : ℚ) :=
      div_le_div_of_nonneg_left hk hbpos hle
    have hmin := min_le_min (le_refl (1 : ℚ)) hdiv
    have hprov : (0 : ℚ) ≤ (if (sortStr agg.all_matches).any
        (fun x => hasSub "Incident" x || hasSub "incident" x) then (1.2 : ℚ) else 1) := by
      split <;> norm_num
    apply mul_le_mul_of_nonneg_right _ hprov
    linarith [hmin]
  · rw [dupRunSingle, List.map_cons, List.map_nil, dupScoreSingle]
  · rw [dupRunDouble, List.map_cons, List.map_nil, dupScoreDouble]

/-- Closed instance of `breadth_denominator_counts_duplicates`: growing the
artifact count from 1 to 2 cannot increase `TG1`'s combined score. -/
theorem breadth_denominator_counts_duplicates_witness :
    combinedScore ["abc"] 2 aggSingle ≤ combinedScore ["abc"] 1 aggSingle :=
  breadth_denominator_counts_duplicates.1 ["abc"] aggSingle 1 2 (by norm_num)
